import Mathlib

/-!
Verification of the ATtiny85 AC phase-angle dimmer firmware
(src/avr/Attiny85-Dimmer/src/main.cpp).

The development shallowly embeds the firmware:
- the normal-mode body of ISR(TIMER1_COMPA_vect) becomes the pure step
  function `tick` on the ISR-visible machine state `DimState`;
- repeated ISR invocations become the trajectory function `traj`, driven
  by a stream of per-tick inputs (the sampled PB2 pin level and the
  dimValue byte read that tick, so concurrent background writes to
  dimValue are modelled by letting the value vary per tick);
- the calibration measurement loop of setup() becomes `calibMeasure`
  over the list of measured inter-edge tick counts, and the min/max
  delay derivation becomes `calibDims`;
- the background dimming-input mapper of loop() becomes `computeDim`.

Machine integers are modelled as Nat/Int with explicit reductions
(mod 256 for uint8_t increments, mod 65536 for the uint16_t sum) at
every point where the C code can overflow.
-/

namespace Dimmer

/-- Timing constant TRIGGER_PULSE_WIDTH from main.cpp (10 ticks of 50 us). -/
@[simp] def TRIGGER_PULSE_WIDTH : Nat := 10

/-- Timing constant ZC_OFFSET from main.cpp (8 ticks after the sensed edge). -/
@[simp] def ZC_OFFSET : Nat := 8

/-- Timing constant SAFETY_TIMEOUT from main.cpp (210 ticks = 10.5 ms). -/
@[simp] def SAFETY_TIMEOUT : Nat := 210

/-- Timing constant MIN_ZC_PERIOD from main.cpp (140 ticks = 7 ms noise gate). -/
@[simp] def MIN_ZC_PERIOD : Nat := 140

/-- Calibration constant MIN_DIM_BASE from main.cpp. -/
@[simp] def MIN_DIM_BASE : Nat := 62

/-- Calibration constant MAX_DIM_MARGIN from main.cpp. -/
@[simp] def MAX_DIM_MARGIN : Nat := 9

/-- Calibration clamp bound MAX_DIM_MIN from main.cpp. -/
@[simp] def MAX_DIM_MIN : Nat := 156

/-- Calibration clamp bound MAX_DIM_MAX from main.cpp. -/
@[simp] def MAX_DIM_MAX : Nat := 195

/-- Calibration clamp bound MIN_DIM_MIN from main.cpp. -/
@[simp] def MIN_DIM_MIN : Nat := 50

/-- Calibration clamp bound MIN_DIM_MAX from main.cpp. -/
@[simp] def MIN_DIM_MAX : Nat := 80

/-- ADC constant ADC_MIN from main.cpp. -/
@[simp] def ADC_MIN : Int := 61

/-- ADC constant ADC_MAX from main.cpp. -/
@[simp] def ADC_MAX : Int := 880

/-- ADC constant ADC_OFF from main.cpp. -/
@[simp] def ADC_OFF : Int := 920

/-- OFF sentinel DIM_OFF from main.cpp. -/
@[simp] def DIM_OFF : Nat := 255

/-- State-machine label S_IDLE from main.cpp. -/
@[simp] def S_IDLE : Nat := 0

/-- State-machine label S_ZC_OFFSET from main.cpp. -/
@[simp] def S_ZC_OFFSET : Nat := 1

/-- State-machine label S_DELAY from main.cpp. -/
@[simp] def S_DELAY : Nat := 2

/-- State-machine label S_TRIGGER from main.cpp. -/
@[simp] def S_TRIGGER : Nat := 3

/-- The machine state visible to the normal-mode body of
ISR(TIMER1_COMPA_vect): the globals `state` and `counter`, the ISR-static
locals `lastPin` and `zcTimer`, and the two PORTB output bits it drives
(PB0 = triac gate, PB1 = debug LED).  All uint8_t fields are Nat values
kept below 256 by the step function. -/
structure DimState where
  state   : Nat
  counter : Nat
  lastPin : Bool
  zcTimer : Nat
  triac   : Bool
  debug   : Bool
deriving DecidableEq, Repr

/-- Saturating increment of the zcTimer static:
`if (zcTimer < 255) zcTimer++;` in main.cpp. -/
def satInc (z : Nat) : Nat := if z < 255 then z + 1 else z

/-- One normal-mode invocation of ISR(TIMER1_COMPA_vect) (main.cpp lines
220-285), as a function of the sampled PB2 level `curPin` and the
`dimValue` byte read during this invocation.  The calibration-mode early
return (lines 215-218) only increments calibCounter and is modelled
separately by `calibMeasure`. -/
def tick (s : DimState) (curPin : Bool) (dimValue : Nat) : DimState :=
  let rising := curPin && !s.lastPin
  let zcT := satInc s.zcTimer
  if s.state = S_IDLE then
    if rising = true ∧ MIN_ZC_PERIOD < zcT then
      { s with lastPin := curPin, zcTimer := 0, counter := 0,
               state := S_ZC_OFFSET, debug := !s.debug }
    else
      { s with lastPin := curPin, zcTimer := zcT }
  else if s.state = S_ZC_OFFSET then
    let c := (s.counter + 1) % 256
    if ZC_OFFSET ≤ c then
      { s with lastPin := curPin, zcTimer := zcT, counter := 0, state := S_DELAY }
    else
      { s with lastPin := curPin, zcTimer := zcT, counter := c }
  else if s.state = S_DELAY then
    let c := (s.counter + 1) % 256
    if dimValue ≤ c then
      { s with lastPin := curPin, zcTimer := zcT, counter := 0,
               state := S_TRIGGER, triac := true }
    else if SAFETY_TIMEOUT ≤ c then
      { s with lastPin := curPin, zcTimer := zcT, counter := c,
               state := S_IDLE, triac := false }
    else
      { s with lastPin := curPin, zcTimer := zcT, counter := c }
  else if s.state = S_TRIGGER then
    let c := (s.counter + 1) % 256
    if TRIGGER_PULSE_WIDTH ≤ c then
      { s with lastPin := curPin, zcTimer := zcT, counter := c,
               state := S_IDLE, triac := false }
    else
      { s with lastPin := curPin, zcTimer := zcT, counter := c }
  else
    { s with lastPin := curPin, zcTimer := zcT, state := S_IDLE, triac := false }

/-- The machine state at the first normal-mode ISR invocation: globals
start as `state = S_IDLE`, `counter = 0`; the statics start at their
initialisers `lastPin = 0`, `zcTimer = 255`; setup() drives PB0 and PB1
low before enabling the timer. -/
def initState : DimState :=
  { state := S_IDLE, counter := 0, lastPin := false, zcTimer := 255,
    triac := false, debug := false }

/-- Per-tick input stream: component 1 is the PB2 sample of that tick,
component 2 the dimValue byte the ISR reads that tick. -/
def InputStream : Type := Nat → Bool × Nat

/-- State after k normal-mode ISR invocations starting from s, reading
pin samples and dimValue bytes from the stream ins. -/
def traj : DimState → InputStream → Nat → DimState
  | s, _, 0 => s
  | s, ins, k + 1 => traj (tick s (ins 0).1 (ins 0).2) (fun i => ins (i + 1)) k

/-- States reachable in normal (post-calibration) mode: the state at the
first normal-mode ISR invocation, closed under ISR invocations with
arbitrary pin samples and dimValue bytes. -/
inductive Reachable : DimState → Prop
  | init : Reachable initState
  | step (s : DimState) (pin : Bool) (dim : Nat) :
      Reachable s → Reachable (tick s pin dim)

/-- Safety invariant of the normal-mode ISR: the triac gate is asserted
only while in S_TRIGGER, and the shared counter stays within the bound
the current state can observe. -/
def Inv (s : DimState) : Prop :=
  (s.triac = true → s.state = S_TRIGGER) ∧
  (s.state = S_ZC_OFFSET → s.counter ≤ 7) ∧
  (s.state = S_DELAY → s.counter ≤ 209) ∧
  (s.state = S_TRIGGER → s.counter ≤ 9)

/-- A zero-cross edge is accepted at tick t when that ISR invocation moves
the machine from S_IDLE to S_ZC_OFFSET (the only transition out of
S_IDLE). -/
def acceptedAt (s0 : DimState) (ins : InputStream) (t : Nat) : Prop :=
  (traj s0 ins t).state = S_IDLE ∧ (traj s0 ins (t + 1)).state = S_ZC_OFFSET

/-- Plausibility window of the calibration measurement loop in setup():
the sample check `ticks >= 140 && ticks <= 220`. -/
def inWindow (t : Nat) : Bool := decide (140 ≤ t ∧ t ≤ 220)

/-- The calibration measurement loop of setup() (main.cpp lines 160-176),
as a function of the successive inter-edge tick counts read from
calibCounter (each a uint16_t value).  periodSum is the uint16_t
accumulator, samples the accepted-sample count; the loop runs while
samples < 8, adds only in-window samples, and a `none` result models the
loop still blocking when the listed edges are exhausted. -/
def calibMeasure : Nat → Nat → List Nat → Option Nat
  | ps, s, [] => if s < 8 then none else some ps
  | ps, s, t :: rest =>
    if s < 8 then
      if inWindow t then calibMeasure ((ps + t) % 65536) (s + 1) rest
      else calibMeasure ps s rest
    else some ps

/-- The pair of dynamic delay bounds computed by calibration. -/
structure CalibResult where
  maxDim : Nat
  minDim : Nat
deriving DecidableEq, Repr

/-- Derivation of maxDim and minDim from the accumulated periodSum
(setup(), main.cpp lines 178-191): avgPeriod is the uint8_t truncation of
periodSum / 8; calcMax and calcMin are int16_t computations clamped by
the two sequential comparisons of the source, then cast back to
uint8_t. -/
def calibDims (periodSum : Nat) : CalibResult :=
  let avgPeriod := (periodSum / 8) % 256
  let calcMax0 : Int := (avgPeriod : Int) - (MAX_DIM_MARGIN : Int)
  let calcMax1 : Int :=
    if calcMax0 < (MAX_DIM_MIN : Int) then (MAX_DIM_MIN : Int) else calcMax0
  let calcMax2 : Int :=
    if (MAX_DIM_MAX : Int) < calcMax1 then (MAX_DIM_MAX : Int) else calcMax1
  let calcMin0 : Int := (avgPeriod : Int) * (MIN_DIM_BASE : Int) / 166 - 1
  let calcMin1 : Int :=
    if calcMin0 < (MIN_DIM_MIN : Int) then (MIN_DIM_MIN : Int) else calcMin0
  let calcMin2 : Int :=
    if (MIN_DIM_MAX : Int) < calcMin1 then (MIN_DIM_MAX : Int) else calcMin1
  { maxDim := calcMax2.toNat % 256, minDim := calcMin2.toNat % 256 }

/-- The Arduino framework map() function (library code, not part of this
repository): integer linear interpolation on C long arithmetic.  Every
use below has nonnegative operands, where C truncated division and the
integer division used here agree. -/
def arduinoMap (x inMin inMax outMin outMax : Int) : Int :=
  (x - inMin) * (outMax - outMin) / (inMax - inMin) + outMin

/-- One pass of the background loop() mapper (main.cpp lines 288-317):
from the ADC sample potValue (an int) it computes the dimValue byte that
is then written through the cli/sei critical section.  minDim and maxDim
are the calibration outputs read that pass. -/
def computeDim (potValue : Int) (minDim maxDim : Nat) : Nat :=
  if ADC_OFF ≤ potValue then DIM_OFF
  else
    let potScaled : Int :=
      if potValue ≤ ADC_MIN then 0
      else if ADC_MAX ≤ potValue then 1023
      else (potValue - ADC_MIN) * 1023 / (ADC_MAX - ADC_MIN)
    (arduinoMap potScaled 0 1023 (minDim : Int) (maxDim : Int)).toNat % 256

theorem traj_zero (s : DimState) (ins : InputStream) : traj s ins 0 = s := rfl

theorem traj_one (s : DimState) (ins : InputStream) :
    traj s ins 1 = tick s (ins 0).1 (ins 0).2 := rfl

theorem traj_succ_front (s : DimState) (ins : InputStream) (k : Nat) :
    traj s ins (k + 1) = traj (tick s (ins 0).1 (ins 0).2) (fun i => ins (i + 1)) k := rfl

theorem traj_succ (t : Nat) :
    ∀ (s : DimState) (ins : InputStream),
      traj s ins (t + 1) = tick (traj s ins t) (ins t).1 (ins t).2 := by
  induction t with
  | zero => intro s ins; rfl
  | succ t ih =>
      intro s ins
      rw [traj_succ_front s ins (t + 1), ih, traj_succ_front s ins t]

theorem traj_add (a : Nat) :
    ∀ (s : DimState) (ins : InputStream) (b : Nat),
      traj s ins (a + b) = traj (traj s ins a) (fun i => ins (a + i)) b := by
  induction a with
  | zero =>
      intro s ins b
      simp only [Nat.zero_add, traj_zero]
  | succ a ih =>
      intro s ins b
      have h1 : a + 1 + b = (a + b) + 1 := by omega
      rw [h1, traj_succ_front s ins (a + b), ih, traj_succ_front s ins a]
      congr 1
      funext i
      congr 1
      omega

theorem inv_init : Inv initState := by
  refine ⟨?_, ?_, ?_, ?_⟩ <;> intro h <;> simp [initState] at h ⊢

/-! Branch equations for `tick`, one per path through the ISR body. -/

theorem tick_idle_accept (s : DimState) (pin : Bool) (dim : Nat)
    (hs : s.state = S_IDLE) (hr : (pin && !s.lastPin) = true)
    (hz : MIN_ZC_PERIOD < satInc s.zcTimer) :
    tick s pin dim = { s with lastPin := pin, zcTimer := 0, counter := 0,
                              state := S_ZC_OFFSET, debug := !s.debug } := by
  simp only [MIN_ZC_PERIOD] at hz
  simp [tick, hs, hr, hz]

theorem tick_idle_reject (s : DimState) (pin : Bool) (dim : Nat)
    (hs : s.state = S_IDLE)
    (h : ¬((pin && !s.lastPin) = true ∧ MIN_ZC_PERIOD < satInc s.zcTimer)) :
    tick s pin dim = { s with lastPin := pin, zcTimer := satInc s.zcTimer } := by
  simp only [MIN_ZC_PERIOD] at h
  simp only [tick, hs, MIN_ZC_PERIOD, S_IDLE]
  rw [if_pos trivial, if_neg h]

theorem tick_offset_done (s : DimState) (pin : Bool) (dim : Nat)
    (hs : s.state = S_ZC_OFFSET) (hc : ZC_OFFSET ≤ (s.counter + 1) % 256) :
    tick s pin dim = { s with lastPin := pin, zcTimer := satInc s.zcTimer,
                              counter := 0, state := S_DELAY } := by
  simp only [ZC_OFFSET] at hc
  simp [tick, hs, hc]

theorem tick_offset_count (s : DimState) (pin : Bool) (dim : Nat)
    (hs : s.state = S_ZC_OFFSET) (hc : ¬ZC_OFFSET ≤ (s.counter + 1) % 256) :
    tick s pin dim = { s with lastPin := pin, zcTimer := satInc s.zcTimer,
                              counter := (s.counter + 1) % 256 } := by
  simp only [ZC_OFFSET] at hc
  simp [tick, hs, hc]

theorem tick_delay_trigger (s : DimState) (pin : Bool) (dim : Nat)
    (hs : s.state = S_DELAY) (hc : dim ≤ (s.counter + 1) % 256) :
    tick s pin dim = { s with lastPin := pin, zcTimer := satInc s.zcTimer,
                              counter := 0, state := S_TRIGGER, triac := true } := by
  simp [tick, hs, hc]

theorem tick_delay_timeout (s : DimState) (pin : Bool) (dim : Nat)
    (hs : s.state = S_DELAY) (hc : ¬dim ≤ (s.counter + 1) % 256)
    (ht : SAFETY_TIMEOUT ≤ (s.counter + 1) % 256) :
    tick s pin dim = { s with lastPin := pin, zcTimer := satInc s.zcTimer,
                              counter := (s.counter + 1) % 256,
                              state := S_IDLE, triac := false } := by
  simp only [SAFETY_TIMEOUT] at ht
  simp [tick, hs, hc, ht]

theorem tick_delay_count (s : DimState) (pin : Bool) (dim : Nat)
    (hs : s.state = S_DELAY) (hc : ¬dim ≤ (s.counter + 1) % 256)
    (ht : ¬SAFETY_TIMEOUT ≤ (s.counter + 1) % 256) :
    tick s pin dim = { s with lastPin := pin, zcTimer := satInc s.zcTimer,
                              counter := (s.counter + 1) % 256 } := by
  simp only [SAFETY_TIMEOUT] at ht
  simp [tick, hs, hc, ht]

theorem tick_trigger_done (s : DimState) (pin : Bool) (dim : Nat)
    (hs : s.state = S_TRIGGER) (hc : TRIGGER_PULSE_WIDTH ≤ (s.counter + 1) % 256) :
    tick s pin dim = { s with lastPin := pin, zcTimer := satInc s.zcTimer,
                              counter := (s.counter + 1) % 256,
                              state := S_IDLE, triac := false } := by
  simp only [TRIGGER_PULSE_WIDTH] at hc
  simp [tick, hs, hc]

theorem tick_trigger_count (s : DimState) (pin : Bool) (dim : Nat)
    (hs : s.state = S_TRIGGER) (hc : ¬TRIGGER_PULSE_WIDTH ≤ (s.counter + 1) % 256) :
    tick s pin dim = { s with lastPin := pin, zcTimer := satInc s.zcTimer,
                              counter := (s.counter + 1) % 256 } := by
  simp only [TRIGGER_PULSE_WIDTH] at hc
  simp [tick, hs, hc]

theorem tick_default (s : DimState) (pin : Bool) (dim : Nat)
    (h0 : s.state ≠ S_IDLE) (h1 : s.state ≠ S_ZC_OFFSET)
    (h2 : s.state ≠ S_DELAY) (h3 : s.state ≠ S_TRIGGER) :
    tick s pin dim = { s with lastPin := pin, zcTimer := satInc s.zcTimer,
                              state := S_IDLE, triac := false } := by
  simp only [S_IDLE, S_ZC_OFFSET, S_DELAY, S_TRIGGER] at h0 h1 h2 h3
  simp [tick, h0, h1, h2, h3]

theorem inv_step (s : DimState) (pin : Bool) (dim : Nat) (h : Inv s) :
    Inv (tick s pin dim) := by
  obtain ⟨h1, h2, h3, h4⟩ := h
  by_cases hs0 : s.state = S_IDLE
  · by_cases hacc : (pin && !s.lastPin) = true ∧ MIN_ZC_PERIOD < satInc s.zcTimer
    · rw [tick_idle_accept s pin dim hs0 hacc.1 hacc.2]
      exact ⟨fun ht => absurd ((h1 ht).symm.trans hs0) (by simp),
        fun _ => by norm_num, fun hst => by norm_num at hst,
        fun hst => by norm_num at hst⟩
    · rw [tick_idle_reject s pin dim hs0 hacc]
      refine ⟨fun ht => absurd ((h1 ht).symm.trans hs0) (by simp), ?_, ?_, ?_⟩ <;>
        (intro hst; exact absurd (hst.symm.trans hs0) (by simp))
  · by_cases hs1 : s.state = S_ZC_OFFSET
    · by_cases hc : ZC_OFFSET ≤ (s.counter + 1) % 256
      · rw [tick_offset_done s pin dim hs1 hc]
        exact ⟨fun ht => absurd ((h1 ht).symm.trans hs1) (by simp),
          fun hst => by norm_num at hst, fun _ => by norm_num,
          fun hst => by norm_num at hst⟩
      · rw [tick_offset_count s pin dim hs1 hc]
        simp only [ZC_OFFSET, Nat.not_le] at hc
        refine ⟨fun ht => absurd ((h1 ht).symm.trans hs1) (by simp),
          fun _ => by dsimp only; omega, ?_, ?_⟩ <;>
          (intro hst; exact absurd (hst.symm.trans hs1) (by simp))
    · by_cases hs2 : s.state = S_DELAY
      · by_cases hc : dim ≤ (s.counter + 1) % 256
        · rw [tick_delay_trigger s pin dim hs2 hc]
          exact ⟨fun _ => rfl, fun hst => by norm_num at hst,
            fun hst => by norm_num at hst, fun _ => by norm_num⟩
        · by_cases ht : SAFETY_TIMEOUT ≤ (s.counter + 1) % 256
          · rw [tick_delay_timeout s pin dim hs2 hc ht]
            refine ⟨fun hx => by norm_num at hx, ?_, ?_, ?_⟩ <;>
              (intro hst; norm_num at hst)
          · rw [tick_delay_count s pin dim hs2 hc ht]
            simp only [SAFETY_TIMEOUT, Nat.not_le] at ht
            refine ⟨fun hx => absurd ((h1 hx).symm.trans hs2) (by simp),
              ?_, fun _ => by dsimp only; omega, ?_⟩ <;>
              (intro hst; exact absurd (hst.symm.trans hs2) (by simp))
      · by_cases hs3 : s.state = S_TRIGGER
        · by_cases hc : TRIGGER_PULSE_WIDTH ≤ (s.counter + 1) % 256
          · rw [tick_trigger_done s pin dim hs3 hc]
            refine ⟨fun hx => by norm_num at hx, ?_, ?_, ?_⟩ <;>
              (intro hst; norm_num at hst)
          · rw [tick_trigger_count s pin dim hs3 hc]
            simp only [TRIGGER_PULSE_WIDTH, Nat.not_le] at hc
            refine ⟨fun _ => hs3, ?_, ?_, fun _ => by dsimp only; omega⟩ <;>
              (intro hst; exact absurd (hst.symm.trans hs3) (by simp))
        · rw [tick_default s pin dim hs0 hs1 hs2 hs3]
          refine ⟨fun hx => by norm_num at hx, ?_, ?_, ?_⟩ <;>
            (intro hst; norm_num at hst)

theorem reachable_inv {s : DimState} (h : Reachable s) : Inv s := by
  induction h with
  | init => exact inv_init
  | step s pin dim _ ih => exact inv_step s pin dim ih

/-- Run through the tail of the S_ZC_OFFSET phase: from an offset state
with n ticks to go, the triac stays off and after n ticks the machine is
in S_DELAY with the counter cleared. -/
theorem offsetRun (n : Nat) :
    ∀ (s : DimState) (ins : InputStream),
      s.state = S_ZC_OFFSET → s.triac = false → s.counter + n = ZC_OFFSET → 0 < n →
      (∀ k, k < n → (traj s ins k).triac = false) ∧
      (traj s ins n).state = S_DELAY ∧ (traj s ins n).counter = 0 ∧
      (traj s ins n).triac = false := by
  induction n with
  | zero => intro s ins _ _ _ h0; omega
  | succ m ih =>
      intro s ins hs htr hcnt _
      have hcle : s.counter ≤ 7 := by simp only [ZC_OFFSET] at hcnt; omega
      have hmod : (s.counter + 1) % 256 = s.counter + 1 := Nat.mod_eq_of_lt (by omega)
      by_cases hc : ZC_OFFSET ≤ (s.counter + 1) % 256
      · have hm : m = 0 := by
          simp only [ZC_OFFSET] at hc hcnt
          omega
        subst hm
        have heq := tick_offset_done s (ins 0).1 (ins 0).2 hs hc
        refine ⟨fun k hk => ?_, ?_, ?_, ?_⟩
        · have hk0 : k = 0 := by omega
          subst hk0; exact htr
        · rw [traj_one, heq]
        · rw [traj_one, heq]
        · rw [traj_one, heq]; exact htr
      · have heq := tick_offset_count s (ins 0).1 (ins 0).2 hs hc
        rw [hmod] at hc
        have hm : 0 < m := by simp only [ZC_OFFSET] at hc hcnt ⊢; omega
        have hst1 : (tick s (ins 0).1 (ins 0).2).state = S_ZC_OFFSET := by rw [heq]; exact hs
        have htr1 : (tick s (ins 0).1 (ins 0).2).triac = false := by rw [heq]; exact htr
        have hcnt1 : (tick s (ins 0).1 (ins 0).2).counter + m = ZC_OFFSET := by
          rw [heq]
          dsimp only
          rw [hmod]
          omega
        obtain ⟨ihall, ihst, ihcn, ihtr⟩ :=
          ih (tick s (ins 0).1 (ins 0).2) (fun i => ins (i + 1)) hst1 htr1 hcnt1 hm
        refine ⟨fun k hk => ?_, ?_, ?_, ?_⟩
        · cases k with
          | zero => exact htr
          | succ j => rw [traj_succ_front]; exact ihall j (by omega)
        · rw [traj_succ_front]; exact ihst
        · rw [traj_succ_front]; exact ihcn
        · rw [traj_succ_front]; exact ihtr

/-- Run through the S_DELAY phase when the dimValue d is reachable
(1 ≤ d ≤ SAFETY_TIMEOUT) and held constant: the triac stays off for the
remaining ticks and is asserted on the tick where the counter reaches d. -/
theorem delayRun (n : Nat) :
    ∀ (s : DimState) (ins : InputStream) (d : Nat),
      (∀ t, (ins t).2 = d) → d ≤ SAFETY_TIMEOUT →
      s.state = S_DELAY → s.triac = false → s.counter + n = d → 0 < n →
      (∀ k, k < n → (traj s ins k).triac = false) ∧
      (traj s ins n).state = S_TRIGGER ∧ (traj s ins n).counter = 0 ∧
      (traj s ins n).triac = true := by
  induction n with
  | zero => intro s ins d _ _ _ _ _ h0; omega
  | succ m ih =>
      intro s ins d hdim hdle hs htr hcnt _
      have hcle : s.counter ≤ 209 := by simp only [SAFETY_TIMEOUT] at hdle; omega
      have hmod : (s.counter + 1) % 256 = s.counter + 1 := Nat.mod_eq_of_lt (by omega)
      have hd0 : (ins 0).2 = d := hdim 0
      by_cases hc : (ins 0).2 ≤ (s.counter + 1) % 256
      · have hm : m = 0 := by
          rw [hmod, hd0] at hc
          omega
        subst hm
        have heq := tick_delay_trigger s (ins 0).1 (ins 0).2 hs hc
        refine ⟨fun k hk => ?_, ?_, ?_, ?_⟩
        · have hk0 : k = 0 := by omega
          subst hk0; exact htr
        · rw [traj_one, heq]
        · rw [traj_one, heq]
        · rw [traj_one, heq]
      · have hto : ¬SAFETY_TIMEOUT ≤ (s.counter + 1) % 256 := by
          rw [hmod, hd0] at hc
          rw [hmod]
          simp only [SAFETY_TIMEOUT] at hdle ⊢
          omega
        have heq := tick_delay_count s (ins 0).1 (ins 0).2 hs hc hto
        rw [hmod, hd0] at hc
        have hm : 0 < m := by omega
        have hst1 : (tick s (ins 0).1 (ins 0).2).state = S_DELAY := by rw [heq]; exact hs
        have htr1 : (tick s (ins 0).1 (ins 0).2).triac = false := by rw [heq]; exact htr
        have hcnt1 : (tick s (ins 0).1 (ins 0).2).counter + m = d := by
          rw [heq]
          dsimp only
          rw [hmod]
          omega
        obtain ⟨ihall, ihst, ihcn, ihtr⟩ :=
          ih (tick s (ins 0).1 (ins 0).2) (fun i => ins (i + 1)) d
            (fun t => hdim (t + 1)) hdle hst1 htr1 hcnt1 hm
        refine ⟨fun k hk => ?_, ?_, ?_, ?_⟩
        · cases k with
          | zero => exact htr
          | succ j => rw [traj_succ_front]; exact ihall j (by omega)
        · rw [traj_succ_front]; exact ihst
        · rw [traj_succ_front]; exact ihcn
        · rw [traj_succ_front]; exact ihtr

/-- Run through the S_DELAY phase when the dimValue d is unreachable
(d > SAFETY_TIMEOUT, e.g. the OFF sentinel) and held constant: the triac
never fires; the counter reaches SAFETY_TIMEOUT and the machine returns
to S_IDLE with the output deasserted. -/
theorem timeoutRun (n : Nat) :
    ∀ (s : DimState) (ins : InputStream) (d : Nat),
      (∀ t, (ins t).2 = d) → SAFETY_TIMEOUT < d →
      s.state = S_DELAY → s.triac = false → s.counter + n = SAFETY_TIMEOUT → 0 < n →
      (∀ k, k < n → (traj s ins k).triac = false) ∧
      (traj s ins n).state = S_IDLE ∧ (traj s ins n).triac = false := by
  induction n with
  | zero => intro s ins d _ _ _ _ _ h0; omega
  | succ m ih =>
      intro s ins d hdim hdgt hs htr hcnt _
      have hcle : s.counter ≤ 209 := by simp only [SAFETY_TIMEOUT] at hcnt; omega
      have hmod : (s.counter + 1) % 256 = s.counter + 1 := Nat.mod_eq_of_lt (by omega)
      have hd0 : (ins 0).2 = d := hdim 0
      have hc : ¬(ins 0).2 ≤ (s.counter + 1) % 256 := by
        rw [hmod, hd0]
        simp only [SAFETY_TIMEOUT] at hdgt hcnt
        omega
      by_cases hto : SAFETY_TIMEOUT ≤ (s.counter + 1) % 256
      · have hm : m = 0 := by
          rw [hmod] at hto
          simp only [SAFETY_TIMEOUT] at hto hcnt
          omega
        subst hm
        have heq := tick_delay_timeout s (ins 0).1 (ins 0).2 hs hc hto
        refine ⟨fun k hk => ?_, ?_, ?_⟩
        · have hk0 : k = 0 := by omega
          subst hk0; exact htr
        · rw [traj_one, heq]
        · rw [traj_one, heq]
      · have heq := tick_delay_count s (ins 0).1 (ins 0).2 hs hc hto
        rw [hmod] at hto
        have hm : 0 < m := by simp only [SAFETY_TIMEOUT] at hto hcnt ⊢; omega
        have hst1 : (tick s (ins 0).1 (ins 0).2).state = S_DELAY := by rw [heq]; exact hs
        have htr1 : (tick s (ins 0).1 (ins 0).2).triac = false := by rw [heq]; exact htr
        have hcnt1 : (tick s (ins 0).1 (ins 0).2).counter + m = SAFETY_TIMEOUT := by
          rw [heq]
          dsimp only
          rw [hmod]
          omega
        obtain ⟨ihall, ihst, ihtr⟩ :=
          ih (tick s (ins 0).1 (ins 0).2) (fun i => ins (i + 1)) d
            (fun t => hdim (t + 1)) hdgt hst1 htr1 hcnt1 hm
        refine ⟨fun k hk => ?_, ?_, ?_⟩
        · cases k with
          | zero => exact htr
          | succ j => rw [traj_succ_front]; exact ihall j (by omega)
        · rw [traj_succ_front]; exact ihst
        · rw [traj_succ_front]; exact ihtr

/-- Run through the S_TRIGGER phase: from a trigger state with n ticks to
go until the counter reaches TRIGGER_PULSE_WIDTH, the triac stays
asserted, and after the n-th tick the machine is in S_IDLE with the
output deasserted.  No hypothesis on the dimValue stream is needed. -/
theorem triggerRun (n : Nat) :
    ∀ (s : DimState) (ins : InputStream),
      s.state = S_TRIGGER → s.triac = true →
      s.counter + n = TRIGGER_PULSE_WIDTH → 0 < n →
      (∀ k, k < n →
        (traj s ins k).triac = true ∧ (traj s ins k).state = S_TRIGGER) ∧
      (traj s ins n).state = S_IDLE ∧ (traj s ins n).triac = false := by
  induction n with
  | zero => intro s ins _ _ _ h0; omega
  | succ m ih =>
      intro s ins hs htr hcnt _
      have hcle : s.counter ≤ 9 := by simp only [TRIGGER_PULSE_WIDTH] at hcnt; omega
      have hmod : (s.counter + 1) % 256 = s.counter + 1 := Nat.mod_eq_of_lt (by omega)
      by_cases hc : TRIGGER_PULSE_WIDTH ≤ (s.counter + 1) % 256
      · have hm : m = 0 := by
          rw [hmod] at hc
          simp only [TRIGGER_PULSE_WIDTH] at hc hcnt
          omega
        subst hm
        have heq := tick_trigger_done s (ins 0).1 (ins 0).2 hs hc
        refine ⟨fun k hk => ?_, ?_, ?_⟩
        · have hk0 : k = 0 := by omega
          subst hk0; exact ⟨htr, hs⟩
        · rw [traj_one, heq]
        · rw [traj_one, heq]
      · have heq := tick_trigger_count s (ins 0).1 (ins 0).2 hs hc
        rw [hmod] at hc
        have hm : 0 < m := by simp only [TRIGGER_PULSE_WIDTH] at hc hcnt ⊢; omega
        have hst1 : (tick s (ins 0).1 (ins 0).2).state = S_TRIGGER := by rw [heq]; exact hs
        have htr1 : (tick s (ins 0).1 (ins 0).2).triac = true := by rw [heq]; exact htr
        have hcnt1 : (tick s (ins 0).1 (ins 0).2).counter + m = TRIGGER_PULSE_WIDTH := by
          rw [heq]
          dsimp only
          rw [hmod]
          omega
        obtain ⟨ihall, ihst, ihtr⟩ :=
          ih (tick s (ins 0).1 (ins 0).2) (fun i => ins (i + 1)) hst1 htr1 hcnt1 hm
        refine ⟨fun k hk => ?_, ?_, ?_⟩
        · cases k with
          | zero => exact ⟨htr, hs⟩
          | succ j => rw [traj_succ_front]; exact ihall j (by omega)
        · rw [traj_succ_front]; exact ihst
        · rw [traj_succ_front]; exact ihtr

/-- Exit bound for the S_DELAY phase under an arbitrary (per-tick varying)
dimValue stream: with n ticks left before the counter reaches
SAFETY_TIMEOUT, the machine leaves S_DELAY within n ticks. -/
theorem delay_exit (n : Nat) :
    ∀ (s : DimState) (ins : InputStream),
      s.state = S_DELAY → s.counter + n = SAFETY_TIMEOUT → 0 < n →
      ∃ k, k ≤ n ∧ (traj s ins k).state ≠ S_DELAY := by
  induction n with
  | zero => intro s ins _ _ h0; omega
  | succ m ih =>
      intro s ins hs hcnt _
      have hcle : s.counter ≤ 209 := by simp only [SAFETY_TIMEOUT] at hcnt; omega
      have hmod : (s.counter + 1) % 256 = s.counter + 1 := Nat.mod_eq_of_lt (by omega)
      by_cases hc : (ins 0).2 ≤ (s.counter + 1) % 256
      · have heq := tick_delay_trigger s (ins 0).1 (ins 0).2 hs hc
        refine ⟨1, by omega, ?_⟩
        rw [traj_one, heq]
        simp
      · by_cases hto : SAFETY_TIMEOUT ≤ (s.counter + 1) % 256
        · have heq := tick_delay_timeout s (ins 0).1 (ins 0).2 hs hc hto
          refine ⟨1, by omega, ?_⟩
          rw [traj_one, heq]
          simp
        · have heq := tick_delay_count s (ins 0).1 (ins 0).2 hs hc hto
          rw [hmod] at hto
          have hm : 0 < m := by simp only [SAFETY_TIMEOUT] at hto hcnt ⊢; omega
          have hst1 : (tick s (ins 0).1 (ins 0).2).state = S_DELAY := by rw [heq]; exact hs
          have hcnt1 : (tick s (ins 0).1 (ins 0).2).counter + m = SAFETY_TIMEOUT := by
            rw [heq]
            dsimp only
            rw [hmod]
            omega
          obtain ⟨k, hk, hkst⟩ :=
            ih (tick s (ins 0).1 (ins 0).2) (fun i => ins (i + 1)) hst1 hcnt1 hm
          refine ⟨k + 1, by omega, ?_⟩
          rw [traj_succ_front]
          exact hkst

/-- C1: in normal (post-calibration) mode, from any reachable state and
under any pin/dimValue input stream, the triac output is observed
deasserted within TRIGGER_PULSE_WIDTH (10) ticks (so it can never remain
continuously asserted for more than 10 ticks), and the machine leaves the
pending-trigger S_DELAY state within SAFETY_TIMEOUT (210) ticks. -/
theorem C1_output_never_stuck (s : DimState) (hs : Reachable s) (ins : InputStream) :
    (∃ k, k ≤ TRIGGER_PULSE_WIDTH ∧ (traj s ins k).triac = false) ∧
    (∃ k, k ≤ SAFETY_TIMEOUT ∧ (traj s ins k).state ≠ S_DELAY) := by
  have hinv := reachable_inv hs
  constructor
  · cases htr : s.triac with
    | false => exact ⟨0, Nat.zero_le _, htr⟩
    | true =>
        have hst := hinv.1 htr
        have hcle : s.counter ≤ 9 := hinv.2.2.2 hst
        have h := triggerRun (10 - s.counter) s ins hst htr
          (by simp only [TRIGGER_PULSE_WIDTH]; omega) (by omega)
        exact ⟨10 - s.counter, by simp only [TRIGGER_PULSE_WIDTH]; omega, h.2.2⟩
  · by_cases hd : s.state = S_DELAY
    · have hcle : s.counter ≤ 209 := hinv.2.2.1 hd
      obtain ⟨k, hk, hkst⟩ := delay_exit (210 - s.counter) s ins hd
        (by simp only [SAFETY_TIMEOUT]; omega) (by omega)
      exact ⟨k, by simp only [SAFETY_TIMEOUT] at hk ⊢; omega, hkst⟩
    · exact ⟨0, Nat.zero_le _, hd⟩

/-- Witness for C1: the initial state is reachable; instantiate with a
constant input stream. -/
theorem C1_output_never_stuck_w :
    (∃ k, k ≤ TRIGGER_PULSE_WIDTH ∧
      (traj initState (fun _ => (false, 80)) k).triac = false) ∧
    (∃ k, k ≤ SAFETY_TIMEOUT ∧
      (traj initState (fun _ => (false, 80)) k).state ≠ S_DELAY) :=
  C1_output_never_stuck initState Reachable.init (fun _ => (false, 80))

/-- Every calibration result lies inside the fixed clamp bounds: minDim
in [50, 80] and maxDim in [156, 195].  Hence any dimValue taken from a
calibrated [minDim, maxDim] interval satisfies 50 ≤ d ≤ 195. -/
theorem calibDims_range (ps : Nat) :
    MIN_DIM_MIN ≤ (calibDims ps).minDim ∧ (calibDims ps).minDim ≤ MIN_DIM_MAX ∧
    MAX_DIM_MIN ≤ (calibDims ps).maxDim ∧ (calibDims ps).maxDim ≤ MAX_DIM_MAX := by
  simp only [calibDims, MIN_DIM_MIN, MIN_DIM_MAX, MAX_DIM_MIN, MAX_DIM_MAX,
    MAX_DIM_MARGIN, MIN_DIM_BASE]
  set x : Int := ((ps / 8 % 256 : Nat) : Int) * ((62 : Nat) : Int) / 166 - 1 with hx
  set y : Int := if x < ((50 : Nat) : Int) then ((50 : Nat) : Int) else x with hy
  set z : Int := if ((80 : Nat) : Int) < y then ((80 : Nat) : Int) else y with hz
  set u : Int := ((ps / 8 % 256 : Nat) : Int) - ((9 : Nat) : Int) with hu
  set v : Int := if u < ((156 : Nat) : Int) then ((156 : Nat) : Int) else u with hv
  set w : Int := if ((195 : Nat) : Int) < v then ((195 : Nat) : Int) else v with hw
  have hy50 : ((50 : Nat) : Int) ≤ y := by rw [hy]; split_ifs <;> omega
  have hz5080 : ((50 : Nat) : Int) ≤ z ∧ z ≤ ((80 : Nat) : Int) := by
    rw [hz]; split_ifs <;> omega
  have hv156 : ((156 : Nat) : Int) ≤ v := by rw [hv]; split_ifs <;> omega
  have hw1 : ((156 : Nat) : Int) ≤ w ∧ w ≤ ((195 : Nat) : Int) := by
    rw [hw]; split_ifs <;> omega
  refine ⟨?_, ?_, ?_, ?_⟩ <;> omega

/-- C2: for a dimValue d held constant with 50 ≤ d ≤ 195 (the range that
contains every calibrated [minDim, maxDim] interval), the triac output is
asserted exactly ZC_OFFSET + d ticks after the tick on which the
zero-cross edge was accepted (the state just after that tick being
S_ZC_OFFSET with counter 0 and output off), and is off on every earlier
tick; the pin samples during the half-cycle are arbitrary. -/
theorem C2_trigger_onset (d : Nat) (s0 : DimState) (ins : InputStream)
    (hdim : ∀ t, (ins t).2 = d) (hd1 : 50 ≤ d) (hd2 : d ≤ 195)
    (h1 : s0.state = S_ZC_OFFSET) (h2 : s0.counter = 0) (h3 : s0.triac = false) :
    (∀ k, k < ZC_OFFSET + d → (traj s0 ins k).triac = false) ∧
    (traj s0 ins (ZC_OFFSET + d)).triac = true ∧
    (traj s0 ins (ZC_OFFSET + d)).state = S_TRIGGER := by
  obtain ⟨offAll, offSt, offCn, offTr⟩ := offsetRun ZC_OFFSET s0 ins h1 h3
    (by rw [h2, Nat.zero_add]) (by simp only [ZC_OFFSET]; omega)
  have hsplit : ∀ j, traj s0 ins (ZC_OFFSET + j) =
      traj (traj s0 ins ZC_OFFSET) (fun i => ins (ZC_OFFSET + i)) j :=
    fun j => traj_add ZC_OFFSET s0 ins j
  obtain ⟨delAll, delSt, delCn, delTr⟩ :=
    delayRun d (traj s0 ins ZC_OFFSET) (fun i => ins (ZC_OFFSET + i)) d
      (fun t => hdim (ZC_OFFSET + t))
      (by simp only [SAFETY_TIMEOUT]; omega)
      offSt offTr (by rw [offCn, Nat.zero_add]) (by omega)
  refine ⟨fun k hk => ?_, ?_, ?_⟩
  · by_cases hk8 : k < ZC_OFFSET
    · exact offAll k hk8
    · have hkrep : k = ZC_OFFSET + (k - ZC_OFFSET) := by omega
      rw [hkrep, hsplit]
      exact delAll (k - ZC_OFFSET) (by omega)
  · rw [hsplit d]; exact delTr
  · rw [hsplit d]; exact delSt

/-- Witness for C2 at d = 80: the output is asserted at tick
ZC_OFFSET + 80 = 88 after the accepted edge. -/
theorem C2_trigger_onset_w :
    (traj { state := S_ZC_OFFSET, counter := 0, lastPin := true, zcTimer := 0,
            triac := false, debug := true }
      (fun _ => (false, 80)) (ZC_OFFSET + 80)).triac = true ∧
    (traj { state := S_ZC_OFFSET, counter := 0, lastPin := true, zcTimer := 0,
            triac := false, debug := true }
      (fun _ => (false, 80)) (ZC_OFFSET + 80)).state = S_TRIGGER :=
  (C2_trigger_onset 80
    { state := S_ZC_OFFSET, counter := 0, lastPin := true, zcTimer := 0,
      triac := false, debug := true }
    (fun _ => (false, 80)) (fun _ => rfl) (by omega) (by omega) rfl rfl rfl).2

/-- C3: for a dimValue d held constant with d > SAFETY_TIMEOUT (in
particular the OFF sentinel 255), a half-cycle entered in S_DELAY never
asserts the triac: the output stays off through the whole timeout period
and after SAFETY_TIMEOUT (210) ticks the machine is back in S_IDLE. -/
theorem C3_sentinel_no_trigger (d : Nat) (s0 : DimState) (ins : InputStream)
    (hdim : ∀ t, (ins t).2 = d) (hd : SAFETY_TIMEOUT < d)
    (h1 : s0.state = S_DELAY) (h2 : s0.counter = 0) (h3 : s0.triac = false) :
    (∀ k, k ≤ SAFETY_TIMEOUT → (traj s0 ins k).triac = false) ∧
    (traj s0 ins SAFETY_TIMEOUT).state = S_IDLE := by
  obtain ⟨hall, hst, htr⟩ := timeoutRun SAFETY_TIMEOUT s0 ins d hdim hd h1 h3
    (by rw [h2, Nat.zero_add]) (by simp only [SAFETY_TIMEOUT]; omega)
  refine ⟨fun k hk => ?_, hst⟩
  rcases Nat.lt_or_ge k SAFETY_TIMEOUT with h | h
  · exact hall k h
  · have hke : k = SAFETY_TIMEOUT := by omega
    rw [hke]
    exact htr

/-- Witness for C3 at the OFF sentinel d = 255. -/
theorem C3_sentinel_no_trigger_w :
    (∀ k, k ≤ SAFETY_TIMEOUT →
      (traj { state := S_DELAY, counter := 0, lastPin := true, zcTimer := 8,
              triac := false, debug := true }
        (fun _ => (false, DIM_OFF)) k).triac = false) ∧
    (traj { state := S_DELAY, counter := 0, lastPin := true, zcTimer := 8,
            triac := false, debug := true }
      (fun _ => (false, DIM_OFF)) SAFETY_TIMEOUT).state = S_IDLE :=
  C3_sentinel_no_trigger DIM_OFF
    { state := S_DELAY, counter := 0, lastPin := true, zcTimer := 8,
      triac := false, debug := true }
    (fun _ => (false, DIM_OFF)) (fun _ => rfl) (by norm_num) rfl rfl rfl

/-- C5: once the triac output has just been asserted (S_TRIGGER entered
with counter 0), it is held asserted for exactly TRIGGER_PULSE_WIDTH (10)
ticks regardless of the dimValue and pin streams, after which the output
is deasserted and the machine returns to S_IDLE. -/
theorem C5_pulse_exact (s0 : DimState) (ins : InputStream)
    (h1 : s0.state = S_TRIGGER) (h2 : s0.counter = 0) (h3 : s0.triac = true) :
    (∀ k, k < TRIGGER_PULSE_WIDTH →
      (traj s0 ins k).triac = true ∧ (traj s0 ins k).state = S_TRIGGER) ∧
    (traj s0 ins TRIGGER_PULSE_WIDTH).triac = false ∧
    (traj s0 ins TRIGGER_PULSE_WIDTH).state = S_IDLE := by
  obtain ⟨hall, hst, htr⟩ := triggerRun TRIGGER_PULSE_WIDTH s0 ins h1 h3
    (by rw [h2, Nat.zero_add]) (by simp only [TRIGGER_PULSE_WIDTH]; omega)
  exact ⟨hall, htr, hst⟩

/-- Witness for C5. -/
theorem C5_pulse_exact_w :
    (traj { state := S_TRIGGER, counter := 0, lastPin := false, zcTimer := 96,
            triac := true, debug := false }
      (fun _ => (false, 80)) TRIGGER_PULSE_WIDTH).triac = false ∧
    (traj { state := S_TRIGGER, counter := 0, lastPin := false, zcTimer := 96,
            triac := true, debug := false }
      (fun _ => (false, 80)) TRIGGER_PULSE_WIDTH).state = S_IDLE :=
  (C5_pulse_exact
    { state := S_TRIGGER, counter := 0, lastPin := false, zcTimer := 96,
      triac := true, debug := false }
    (fun _ => (false, 80)) rfl rfl rfl).2

/-- C7: for every state value outside {S_IDLE, S_ZC_OFFSET, S_DELAY,
S_TRIGGER}, a single normal-mode ISR invocation deasserts the triac
output and forces the state back to S_IDLE. -/
theorem C7_unknown_state_recovery (s : DimState) (pin : Bool) (dim : Nat)
    (h0 : s.state ≠ S_IDLE) (h1 : s.state ≠ S_ZC_OFFSET)
    (h2 : s.state ≠ S_DELAY) (h3 : s.state ≠ S_TRIGGER) :
    (tick s pin dim).state = S_IDLE ∧ (tick s pin dim).triac = false := by
  rw [tick_default s pin dim h0 h1 h2 h3]
  exact ⟨rfl, rfl⟩

/-- Witness for C7 at the injected invalid state value 4. -/
theorem C7_unknown_state_recovery_w :
    (tick { state := 4, counter := 77, lastPin := true, zcTimer := 20,
            triac := true, debug := false } false 80).state = S_IDLE ∧
    (tick { state := 4, counter := 77, lastPin := true, zcTimer := 20,
            triac := true, debug := false } false 80).triac = false :=
  C7_unknown_state_recovery
    { state := 4, counter := 77, lastPin := true, zcTimer := 20,
      triac := true, debug := false } false 80
    (by norm_num) (by norm_num) (by norm_num) (by norm_num)

/-- C10: in the S_ZC_OFFSET, S_DELAY and S_TRIGGER states the pin sample
influences nothing but the previous-sample latch: the post-tick state
equals the post-tick state under a low pin sample with only lastPin
replaced, and the debounce timer follows its saturating increment (so a
rising edge neither restarts the phase sequence nor resets the timer). -/
theorem C10_edges_only_in_idle (s : DimState) (pin : Bool) (dim : Nat)
    (h : s.state = S_ZC_OFFSET ∨ s.state = S_DELAY ∨ s.state = S_TRIGGER) :
    tick s pin dim = { tick s false dim with lastPin := pin } ∧
    (tick s pin dim).zcTimer = satInc s.zcTimer := by
  rcases h with hh | hh | hh
  · by_cases hc : ZC_OFFSET ≤ (s.counter + 1) % 256
    · rw [tick_offset_done s pin dim hh hc, tick_offset_done s false dim hh hc]
      exact ⟨rfl, rfl⟩
    · rw [tick_offset_count s pin dim hh hc, tick_offset_count s false dim hh hc]
      exact ⟨rfl, rfl⟩
  · by_cases hc : dim ≤ (s.counter + 1) % 256
    · rw [tick_delay_trigger s pin dim hh hc, tick_delay_trigger s false dim hh hc]
      exact ⟨rfl, rfl⟩
    · by_cases hto : SAFETY_TIMEOUT ≤ (s.counter + 1) % 256
      · rw [tick_delay_timeout s pin dim hh hc hto,
            tick_delay_timeout s false dim hh hc hto]
        exact ⟨rfl, rfl⟩
      · rw [tick_delay_count s pin dim hh hc hto,
            tick_delay_count s false dim hh hc hto]
        exact ⟨rfl, rfl⟩
  · by_cases hc : TRIGGER_PULSE_WIDTH ≤ (s.counter + 1) % 256
    · rw [tick_trigger_done s pin dim hh hc, tick_trigger_done s false dim hh hc]
      exact ⟨rfl, rfl⟩
    · rw [tick_trigger_count s pin dim hh hc, tick_trigger_count s false dim hh hc]
      exact ⟨rfl, rfl⟩

/-- Witness for C10 during a delay phase with a rising edge present. -/
theorem C10_edges_only_in_idle_w :
    tick { state := S_DELAY, counter := 5, lastPin := false, zcTimer := 14,
           triac := false, debug := false } true 80 =
      { tick { state := S_DELAY, counter := 5, lastPin := false, zcTimer := 14,
               triac := false, debug := false } false 80 with lastPin := true } ∧
    (tick { state := S_DELAY, counter := 5, lastPin := false, zcTimer := 14,
            triac := false, debug := false } true 80).zcTimer = satInc 14 :=
  C10_edges_only_in_idle
    { state := S_DELAY, counter := 5, lastPin := false, zcTimer := 14,
      triac := false, debug := false } true 80 (Or.inr (Or.inl rfl))

/-- Inversion of an accepted edge: leaving S_IDLE for S_ZC_OFFSET means
the debounce gate passed, i.e. the post-increment timer strictly exceeded
MIN_ZC_PERIOD, and the timer was reset to 0. -/
theorem accept_inversion (s : DimState) (pin : Bool) (dim : Nat)
    (hs : s.state = S_IDLE) (hstep : (tick s pin dim).state = S_ZC_OFFSET) :
    (tick s pin dim).zcTimer = 0 ∧ MIN_ZC_PERIOD < satInc s.zcTimer := by
  by_cases hacc : (pin && !s.lastPin) = true ∧ MIN_ZC_PERIOD < satInc s.zcTimer
  · rw [tick_idle_accept s pin dim hs hacc.1 hacc.2]
    exact ⟨rfl, hacc.2⟩
  · rw [tick_idle_reject s pin dim hs hacc] at hstep
    dsimp only at hstep
    rw [hs] at hstep
    norm_num at hstep

/-- Per tick, the debounce timer grows by at most one (it is reset only
on acceptance and saturates at 255). -/
theorem tick_zc_growth (s : DimState) (pin : Bool) (dim : Nat) :
    (tick s pin dim).zcTimer ≤ s.zcTimer + 1 := by
  have hsat : satInc s.zcTimer ≤ s.zcTimer + 1 := by
    unfold satInc; split <;> omega
  by_cases hs0 : s.state = S_IDLE
  · by_cases hacc : (pin && !s.lastPin) = true ∧ MIN_ZC_PERIOD < satInc s.zcTimer
    · rw [tick_idle_accept s pin dim hs0 hacc.1 hacc.2]
      exact Nat.zero_le _
    · rw [tick_idle_reject s pin dim hs0 hacc]
      exact hsat
  · by_cases hs1 : s.state = S_ZC_OFFSET
    · by_cases hc : ZC_OFFSET ≤ (s.counter + 1) % 256
      · rw [tick_offset_done s pin dim hs1 hc]; exact hsat
      · rw [tick_offset_count s pin dim hs1 hc]; exact hsat
    · by_cases hs2 : s.state = S_DELAY
      · by_cases hc : dim ≤ (s.counter + 1) % 256
        · rw [tick_delay_trigger s pin dim hs2 hc]; exact hsat
        · by_cases hto : SAFETY_TIMEOUT ≤ (s.counter + 1) % 256
          · rw [tick_delay_timeout s pin dim hs2 hc hto]; exact hsat
          · rw [tick_delay_count s pin dim hs2 hc hto]; exact hsat
      · by_cases hs3 : s.state = S_TRIGGER
        · by_cases hc : TRIGGER_PULSE_WIDTH ≤ (s.counter + 1) % 256
          · rw [tick_trigger_done s pin dim hs3 hc]; exact hsat
          · rw [tick_trigger_count s pin dim hs3 hc]; exact hsat
        · rw [tick_default s pin dim hs0 hs1 hs2 hs3]; exact hsat

/-- Over k ticks, the debounce timer grows by at most k. -/
theorem traj_zc_le (k : Nat) :
    ∀ (t : Nat) (s0 : DimState) (ins : InputStream),
      (traj s0 ins (t + k)).zcTimer ≤ (traj s0 ins t).zcTimer + k := by
  induction k with
  | zero => intro t s0 ins; simp
  | succ k ih =>
      intro t s0 ins
      have h1 : t + (k + 1) = (t + k) + 1 := by omega
      rw [h1, traj_succ]
      have h2 := tick_zc_growth (traj s0 ins (t + k)) (ins (t + k)).1 (ins (t + k)).2
      have h3 := ih t s0 ins
      omega

/-- C6: an edge is accepted only when the saturating debounce timer, after
its per-tick increment, strictly exceeds MIN_ZC_PERIOD (140), and the
timer is reset to 0 on acceptance; consequently any two accepted edges in
a normal-mode run are at least MIN_ZC_PERIOD ticks apart. -/
theorem C6_debounce_spacing (s0 : DimState) (ins : InputStream) (t1 t2 : Nat)
    (h1 : acceptedAt s0 ins t1) (h2 : acceptedAt s0 ins t2) (h12 : t1 < t2) :
    (traj s0 ins (t1 + 1)).zcTimer = 0 ∧
    MIN_ZC_PERIOD < satInc (traj s0 ins t2).zcTimer ∧
    MIN_ZC_PERIOD ≤ t2 - t1 := by
  obtain ⟨ha1, hb1⟩ := h1
  obtain ⟨ha2, hb2⟩ := h2
  have e1 := traj_succ t1 s0 ins
  have e2 := traj_succ t2 s0 ins
  have inv1 := accept_inversion (traj s0 ins t1) (ins t1).1 (ins t1).2 ha1
    (by rw [← e1]; exact hb1)
  have inv2 := accept_inversion (traj s0 ins t2) (ins t2).1 (ins t2).2 ha2
    (by rw [← e2]; exact hb2)
  have hz1 : (traj s0 ins (t1 + 1)).zcTimer = 0 := by rw [e1]; exact inv1.1
  have hgate := inv2.2
  have hpre : MIN_ZC_PERIOD ≤ (traj s0 ins t2).zcTimer := by
    have hsat : satInc (traj s0 ins t2).zcTimer ≤ (traj s0 ins t2).zcTimer + 1 := by
      unfold satInc; split <;> omega
    simp only [MIN_ZC_PERIOD] at hgate ⊢
    omega
  have hchain := traj_zc_le (t2 - t1 - 1) (t1 + 1) s0 ins
  have harith : t1 + 1 + (t2 - t1 - 1) = t2 := by omega
  rw [harith, hz1] at hchain
  refine ⟨hz1, hgate, ?_⟩
  simp only [MIN_ZC_PERIOD] at hpre ⊢
  omega

set_option maxRecDepth 100000 in
/-- Witness for C6: a run from the initial state with edges offered at
ticks 0 and 169 and dimValue 150; both are accepted and lie 169 ≥ 140
ticks apart. -/
theorem C6_debounce_spacing_w :
    (traj initState (fun t => (t == 0 || t == 169, 150)) (0 + 1)).zcTimer = 0 ∧
    MIN_ZC_PERIOD <
      satInc (traj initState (fun t => (t == 0 || t == 169, 150)) 169).zcTimer ∧
    MIN_ZC_PERIOD ≤ 169 - 0 :=
  C6_debounce_spacing initState (fun t => (t == 0 || t == 169, 150)) 0 169
    ⟨by decide, by decide⟩ ⟨by decide, by decide⟩ (by omega)

/-- The sum returned by the measurement loop is the sum of exactly 8
in-window samples, hence lies in [8 * 140, 8 * 220] (and the uint16_t
accumulator never wraps). -/
theorem calibMeasure_bounds (edges : List Nat) :
    ∀ (p s ps : Nat), s ≤ 8 → p + (8 - s) * 220 < 65536 →
      calibMeasure p s edges = some ps →
      p + (8 - s) * 140 ≤ ps ∧ ps ≤ p + (8 - s) * 220 := by
  induction edges with
  | nil =>
      intro p s ps hs hlt h
      by_cases hs8 : s < 8
      · simp [calibMeasure, hs8] at h
      · have hse : s = 8 := by omega
        subst hse
        simp [calibMeasure] at h
        omega
  | cons t rest ih =>
      intro p s ps hs hlt h
      by_cases hs8 : s < 8
      · by_cases hw : inWindow t = true
        · have hwin : 140 ≤ t ∧ t ≤ 220 := by simpa [inWindow] using hw
          simp only [calibMeasure, if_pos hs8, if_pos hw] at h
          have hmod : (p + t) % 65536 = p + t := Nat.mod_eq_of_lt (by omega)
          rw [hmod] at h
          have := ih (p + t) (s + 1) ps (by omega) (by omega) h
          omega
        · simp only [calibMeasure, if_pos hs8, if_neg hw] at h
          exact ih p s ps hs hlt h
      · have hse : s = 8 := by omega
        subst hse
        simp [calibMeasure] at h
        omega

/-- The measurement loop fails to return (blocks forever) exactly when
fewer than the still-needed number of in-window samples appear among the
remaining edges. -/
theorem calibMeasure_none (edges : List Nat) :
    ∀ (p s : Nat), s ≤ 8 →
      (calibMeasure p s edges = none ↔ List.countP inWindow edges < 8 - s) := by
  induction edges with
  | nil =>
      intro p s hs
      by_cases hs8 : s < 8
      · simp [calibMeasure, hs8]
      · have hse : s = 8 := by omega
        subst hse
        simp [calibMeasure]
  | cons t rest ih =>
      intro p s hs
      by_cases hs8 : s < 8
      · by_cases hw : inWindow t = true
        · rw [List.countP_cons_of_pos inWindow rest hw]
          simp only [calibMeasure, if_pos hs8, if_pos hw]
          rw [ih ((p + t) % 65536) (s + 1) (by omega)]
          omega
        · rw [List.countP_cons_of_neg inWindow rest (by simpa using hw)]
          simp only [calibMeasure, if_pos hs8, if_neg hw]
          exact ih p s hs
      · have hse : s = 8 := by omega
        subst hse
        simp [calibMeasure]

/-- The sum returned by the measurement loop is the sum of the first
still-needed in-window samples among the remaining edges. -/
theorem calibMeasure_sum (edges : List Nat) :
    ∀ (p s ps : Nat), s ≤ 8 → p + (8 - s) * 220 < 65536 →
      calibMeasure p s edges = some ps →
      ps = p + (List.take (8 - s) (List.filter inWindow edges)).sum := by
  induction edges with
  | nil =>
      intro p s ps hs hlt h
      by_cases hs8 : s < 8
      · simp [calibMeasure, hs8] at h
      · have hse : s = 8 := by omega
        subst hse
        simp [calibMeasure] at h
        simp [h]
  | cons t rest ih =>
      intro p s ps hs hlt h
      by_cases hs8 : s < 8
      · by_cases hw : inWindow t = true
        · have hwin : 140 ≤ t ∧ t ≤ 220 := by simpa [inWindow] using hw
          simp only [calibMeasure, if_pos hs8, if_pos hw] at h
          have hmod : (p + t) % 65536 = p + t := Nat.mod_eq_of_lt (by omega)
          rw [hmod] at h
          have hrec := ih (p + t) (s + 1) ps (by omega) (by omega) h
          rw [List.filter_cons_of_pos hw]
          have hsm : 8 - s = (8 - (s + 1)) + 1 := by omega
          rw [hsm, List.take_succ_cons, List.sum_cons]
          omega
        · simp only [calibMeasure, if_pos hs8, if_neg hw] at h
          rw [List.filter_cons_of_neg (by simpa using hw)]
          exact ih p s ps hs hlt h
      · have hse : s = 8 := by omega
        subst hse
        simp [calibMeasure] at h
        simp [h]

/-- C8: the calibration measurement loop counts only inter-edge samples
inside the plausibility window [140, 220] toward the required 8,
discarding out-of-window samples without counting them; it returns
(terminates) exactly when the edge sequence supplies 8 in-window samples,
in which case the accumulated periodSum is their sum, and otherwise it
keeps blocking (modelled by `none` on the exhausted edge list). -/
theorem C8_calibration_sampling (edges : List Nat) :
    (calibMeasure 0 0 edges = none ↔ List.countP inWindow edges < 8) ∧
    (∀ ps, calibMeasure 0 0 edges = some ps →
      ps = (List.take 8 (List.filter inWindow edges)).sum) := by
  constructor
  · simpa using calibMeasure_none edges 0 0 (by omega)
  · intro ps h
    simpa using calibMeasure_sum edges 0 0 ps (by omega) (by omega) h

/-- Witness for C8: one out-of-window sample (100) is discarded without
being counted, and the returned sum 1328 is the sum of the first 8
in-window samples. -/
theorem C8_calibration_sampling_w :
    (1328 : Nat) =
      (List.take 8 (List.filter inWindow
        [100, 166, 166, 166, 166, 166, 166, 166, 166])).sum :=
  (C8_calibration_sampling [100, 166, 166, 166, 166, 166, 166, 166, 166]).2
    1328 (by decide)

/-- C4: on any successful calibration run the derived bounds are obtained
by exact integer arithmetic from the truncated average avgPeriod = ps / 8
of the 8 accepted samples: maxDim = clamp(avgPeriod - 9, 156, 195) and
minDim = clamp(avgPeriod * 62 / 166 - 1, 50, 80). -/
theorem C4_calibration_bounds (edges : List Nat) (ps : Nat)
    (h : calibMeasure 0 0 edges = some ps) :
    calibDims ps =
      { maxDim := max MAX_DIM_MIN (min MAX_DIM_MAX (ps / 8 - MAX_DIM_MARGIN)),
        minDim := max MIN_DIM_MIN
          (min MIN_DIM_MAX (ps / 8 * MIN_DIM_BASE / 166 - 1)) } := by
  have hb := calibMeasure_bounds edges 0 0 ps (by omega) (by omega) h
  norm_num at hb
  have hmod : ps / 8 % 256 = ps / 8 := Nat.mod_eq_of_lt (by omega)
  have hdivcast : ((ps / 8 : Nat) : Int) * (((62 : Nat)) : Int) / 166 =
      ((ps / 8 * 62 / 166 : Nat) : Int) := by
    norm_cast
  simp only [calibDims, MAX_DIM_MARGIN, MAX_DIM_MIN, MAX_DIM_MAX,
    MIN_DIM_BASE, MIN_DIM_MIN, MIN_DIM_MAX, hmod, hdivcast]
  rw [CalibResult.mk.injEq]
  constructor
  · split_ifs <;> omega
  · split_ifs <;> omega

/-- Witness for C4: eight accepted samples of 166 ticks each give
periodSum 1328, avgPeriod 166, maxDim 157 and minDim 61. -/
theorem C4_calibration_bounds_w : calibDims 1328 = { maxDim := 157, minDim := 61 } :=
  (C4_calibration_bounds [166, 166, 166, 166, 166, 166, 166, 166] 1328
    (by decide)).trans (by decide)

/-- For an input in [0, 1023], map() lands in [outMin, outMax]. -/
theorem arduinoMap_bounds (x : Int) (mn mx : Nat) (hmn : mn ≤ mx)
    (hx0 : 0 ≤ x) (hx1 : x ≤ 1023) :
    (mn : Int) ≤ arduinoMap x 0 1023 (mn : Int) (mx : Int) ∧
    arduinoMap x 0 1023 (mn : Int) (mx : Int) ≤ (mx : Int) := by
  unfold arduinoMap
  have hd : (0 : Int) ≤ (mx : Int) - (mn : Int) := by
    have h1 : ((mn : Int)) ≤ (mx : Int) := by exact_mod_cast hmn
    omega
  have ht0 : 0 ≤ x * ((mx : Int) - (mn : Int)) / 1023 :=
    Int.ediv_nonneg (mul_nonneg hx0 hd) (by norm_num)
  have htd : x * ((mx : Int) - (mn : Int)) ≤ 1023 * ((mx : Int) - (mn : Int)) :=
    mul_le_mul_of_nonneg_right hx1 hd
  have ht1 : x * ((mx : Int) - (mn : Int)) / 1023 ≤ (mx : Int) - (mn : Int) := by
    have h2 := Int.ediv_le_ediv (c := (1023 : Int)) (by norm_num) htd
    have h3 : (1023 : Int) * ((mx : Int) - (mn : Int)) / 1023 = (mx : Int) - (mn : Int) :=
      Int.mul_ediv_cancel_left _ (by norm_num)
    omega
  constructor <;> (simp only [sub_zero]; omega)

/-- C9: the background mapper sends any ADC reading at or above ADC_OFF
(920) to the OFF value 255, which strictly exceeds SAFETY_TIMEOUT (210);
every other reading is clamped into [ADC_MIN, ADC_MAX] and linearly
mapped so the written dimValue lies within the calibrated
[minDim, maxDim] interval. -/
theorem C9_input_mapping (pot : Int) (mn mx : Nat) (hmn : mn ≤ mx) (hmx : mx ≤ 255) :
    (ADC_OFF ≤ pot →
      computeDim pot mn mx = DIM_OFF ∧ SAFETY_TIMEOUT < computeDim pot mn mx) ∧
    (pot < ADC_OFF →
      mn ≤ computeDim pot mn mx ∧ computeDim pot mn mx ≤ mx) := by
  constructor
  · intro hoff
    have hval : computeDim pot mn mx = DIM_OFF := by
      simp only [computeDim]
      rw [if_pos hoff]
    rw [hval]
    exact ⟨rfl, by norm_num⟩
  · intro hlt
    have hnot : ¬ADC_OFF ≤ pot := not_le.mpr hlt
    simp only [computeDim]
    rw [if_neg hnot]
    split_ifs with h1 h2
    · obtain ⟨hb1, hb2⟩ := arduinoMap_bounds 0 mn mx hmn (by norm_num) (by norm_num)
      constructor <;> omega
    · obtain ⟨hb1, hb2⟩ :=
        arduinoMap_bounds 1023 mn mx hmn (by norm_num) (by norm_num)
      constructor <;> omega
    · simp only [ADC_MIN, ADC_MAX] at h1 h2
      have hx0 : 0 ≤ (pot - ADC_MIN) * 1023 / (ADC_MAX - ADC_MIN) := by
        simp only [ADC_MIN, ADC_MAX]
        exact Int.ediv_nonneg (mul_nonneg (by omega) (by norm_num)) (by norm_num)
      have hx1 : (pot - ADC_MIN) * 1023 / (ADC_MAX - ADC_MIN) ≤ 1023 := by
        simp only [ADC_MIN, ADC_MAX]
        have hle : (pot - 61) * 1023 ≤ 818 * 1023 :=
          mul_le_mul_of_nonneg_right (by omega) (by norm_num)
        have h2le := Int.ediv_le_ediv (c := ((880 : Int) - 61)) (by norm_num) hle
        have he : (818 : Int) * 1023 / (880 - 61) = 1021 := by norm_num
        omega
      obtain ⟨hb1, hb2⟩ :=
        arduinoMap_bounds ((pot - ADC_MIN) * 1023 / (ADC_MAX - ADC_MIN)) mn mx
          hmn hx0 hx1
      constructor <;> omega

/-- Witness for C9 at a mid-range ADC reading with the calibrated bounds
of the nominal 60 Hz run. -/
theorem C9_input_mapping_w :
    (61 : Nat) ≤ computeDim 500 61 157 ∧ computeDim 500 61 157 ≤ 157 :=
  (C9_input_mapping 500 61 157 (by omega) (by omega)).2 (by norm_num)

end Dimmer
